import Mathlib

/-!
Verification of the `thruster` control-allocation crate.

Scalars of the Rust source (`f32`/`f64`) are modelled as exact rationals `ℚ`.
External library functions that the crate merely calls — `glam`'s
`Vec2::normalize` and quaternion rotation, and `minilp`'s simplex solver —
are taken as parameters of the embedded definitions: `normalize` and
rotation actions are arbitrary functions `Vec2 → Vec2`, and `solve` is an
arbitrary `LPProblem → Option (Nat → ℚ)` returning a variable assignment,
about which theorems assume only minilp's documented contract (a returned
assignment is feasible/optimal).  Everything else is translated directly
from `src/lib.rs` and `src/optimizer.rs`.
-/

/-- 2-D vector over exact rationals, modelling `glam::Vec2` (`f32` pairs). -/
structure Vec2 where
  x : ℚ
  y : ℚ
deriving DecidableEq, Repr

instance : Add Vec2 := ⟨fun a b => ⟨a.x + b.x, a.y + b.y⟩⟩
instance : Sub Vec2 := ⟨fun a b => ⟨a.x - b.x, a.y - b.y⟩⟩

/-- Componentwise scalar multiplication, `Vec2 * f32` in glam. -/
def Vec2.smul (v : Vec2) (c : ℚ) : Vec2 := ⟨v.x * c, v.y * c⟩

/-- z-component of the 3-D cross product of two vectors extended by z = 0,
`a.extend(0.0).cross(b.extend(0.0)).z` in the source. -/
def Vec2.cross (a b : Vec2) : ℚ := a.x * b.y - a.y * b.x

/-- `Vec2::distance_squared`. -/
def Vec2.distance_squared (a b : Vec2) : ℚ :=
  (a.x - b.x) * (a.x - b.x) + (a.y - b.y) * (a.y - b.y)

@[simp] theorem Vec2.add_def (a b : Vec2) : a + b = ⟨a.x + b.x, a.y + b.y⟩ := rfl
@[simp] theorem Vec2.sub_def (a b : Vec2) : a - b = ⟨a.x - b.x, a.y - b.y⟩ := rfl

/-- Rust `f32::round`: round half away from zero. -/
def rustRound (q : ℚ) : ℤ :=
  if 0 ≤ q then ⌊q + 1/2⌋ else -⌊-q + 1/2⌋

/-- The per-activation rounding step of `calculate_firing`:
`(x * 100.0).round() / 100.0`. -/
def round2 (q : ℚ) : ℚ := (rustRound (q * 100) : ℚ) / 100

/-- Rust `as i32` on an `f32`: truncation toward zero. -/
def rustTrunc (q : ℚ) : ℤ := Int.tdiv q.num (q.den : ℤ)

/-! ## The linear-programming data model (shallow embedding of `minilp`).

A `Problem` is the list of variables added by `add_var` (objective
coefficient and box bounds, in insertion order, so the variable handle is
the list index) together with the list of `≤`-constraints added by
`add_constraint` (each a list of `(variable, coefficient)` terms and a
right-hand side). -/

/-- One `minilp` variable: objective coefficient and `(min, max)` bounds
(`none` = infinite). -/
structure LPVar where
  obj : ℚ
  lo : Option ℚ
  hi : Option ℚ
deriving DecidableEq, Repr

instance : Inhabited LPVar := ⟨⟨0, none, none⟩⟩

/-- One `minilp` constraint `Σ coeff·var ≤ rhs` (the source only uses
`ComparisonOp::Le`). -/
structure LPConstraint where
  terms : List (Nat × ℚ)
  rhs : ℚ
deriving DecidableEq, Repr

instance : Inhabited LPConstraint := ⟨⟨[], 0⟩⟩

structure LPProblem where
  vars : List LPVar
  constraints : List LPConstraint
deriving DecidableEq, Repr

/-- Value of a constraint's left-hand side under an assignment. -/
def wsum (x : Nat → ℚ) (l : List (Nat × ℚ)) : ℚ :=
  (l.map fun p => p.2 * x p.1).sum

/-- Whether a value satisfies a variable's box bounds. -/
def boundOK (v : LPVar) (q : ℚ) : Prop :=
  (match v.lo with | none => True | some a => a ≤ q) ∧
  (match v.hi with | none => True | some b => q ≤ b)

instance (v : LPVar) (q : ℚ) : Decidable (boundOK v q) := by
  unfold boundOK
  cases v.lo <;> cases v.hi <;> simp <;> infer_instance

/-- All variables from index `k` on satisfy their bounds. -/
def boundsOK : List LPVar → Nat → (Nat → ℚ) → Prop
  | [], _, _ => True
  | v :: t, k, x => boundOK v (x k) ∧ boundsOK t (k + 1) x

instance boundsOKDec : (l : List LPVar) → (k : Nat) → (x : Nat → ℚ) →
    Decidable (boundsOK l k x)
  | [], _, _ => .isTrue trivial
  | v :: t, k, x =>
    have : Decidable (boundsOK t (k + 1) x) := boundsOKDec t (k + 1) x
    inferInstanceAs (Decidable (boundOK v (x k) ∧ boundsOK t (k + 1) x))

/-- Objective contribution of the variables from index `k` on. -/
def objTerms : List LPVar → Nat → (Nat → ℚ) → ℚ
  | [], _, _ => 0
  | v :: t, k, x => v.obj * x k + objTerms t (k + 1) x

def feasibleFor (P : LPProblem) (x : Nat → ℚ) : Prop :=
  boundsOK P.vars 0 x ∧ ∀ c ∈ P.constraints, wsum x c.terms ≤ c.rhs

def objective (P : LPProblem) (x : Nat → ℚ) : ℚ := objTerms P.vars 0 x

/-- `minilp`'s contract for a successful `solve`: the returned assignment is
feasible and objective-minimal. -/
def optimalFor (P : LPProblem) (x : Nat → ℚ) : Prop :=
  feasibleFor P x ∧ ∀ y, feasibleFor P y → objective P x ≤ objective P y

/-! ## `src/optimizer.rs` -/

/-- One entry of the `engines` slice passed to the optimizer functions:
`(Vec2, Vec2, f32, (Entity, usize))`. The `Entity` id is modelled as a `Nat`. -/
structure REngine where
  position : Vec2
  thrust_vector : Vec2
  max_thrust : ℚ
  event_key : Nat × Nat
deriving DecidableEq, Repr

/-- `engines.iter().map(|e| e.2).sum()`. -/
def totalThrust (engines : List REngine) : ℚ :=
  (engines.map (fun e => e.max_thrust)).sum

/-- Torque contribution of one engine in `calculate_firing`:
`distance_to_com.cross(normalize(tv) * max_thrust) * torque_weight`. -/
def engineTorque (normalize : Vec2 → Vec2) (torque_weight : ℚ) (com : Vec2)
    (e : REngine) : ℚ :=
  Vec2.cross (e.position - com) ((normalize e.thrust_vector).smul e.max_thrust)
    * torque_weight

/-- The `torques` vector accumulated by `calculate_firing`'s engine loop,
with `torque_weight = total_thrust * 10.0`. -/
def engineTorques (normalize : Vec2 → Vec2) (engines : List REngine)
    (com : Vec2) : List ℚ :=
  engines.map (engineTorque normalize (totalThrust engines * 10) com)

/-- The `forces` vector of `calculate_firing`:
`normalize(tv) * max_thrust * total_force_weight` with weight `1.0`. -/
def engineForces (normalize : Vec2 → Vec2) (engines : List REngine) : List Vec2 :=
  engines.map fun e => ((normalize e.thrust_vector).smul e.max_thrust).smul 1

/-- `total_positive_torque`: fold of `if torque > 0 { acc + |t| }`. -/
def positiveTorqueTotal (ts : List ℚ) : ℚ :=
  ts.foldl (fun acc t => if 0 < t then acc + |t| else acc) 0

/-- `total_negative_torque`: fold of the `else` branch `acc + |t|`. -/
def negativeTorqueTotal (ts : List ℚ) : ℚ :=
  ts.foldl (fun acc t => if 0 < t then acc else acc + |t|) 0

/-- The asymmetric normalization of the requested torque in
`calculate_firing`. -/
def scaledDesiredTorque (ts : List ℚ) (desired_torque : ℚ) : ℚ :=
  if 0 < desired_torque then desired_torque * positiveTorqueTotal ts
  else desired_torque * negativeTorqueTotal ts

/-- The `minilp` problem built by `calculate_firing`
(`src/optimizer.rs`, lines 46–123).  Variable indices: 0 = `desire_var`,
1 = `u` (torque error), 2 = `v` (force-x error), 3 = `w` (force-y error),
`4+i` = activation of engine `i`. -/
def calcFiringProblem (normalize : Vec2 → Vec2) (engines : List REngine)
    (center_of_mass desired_force : Vec2) (desired_torque : ℚ) : LPProblem :=
  let total_thrust := totalThrust engines
  let fuel_consumption_weight : ℚ := 1/10000
  let desire := desired_force.smul total_thrust
  let torques := engineTorques normalize engines center_of_mass
  let forces := engineForces normalize engines
  let desired_torque' := scaledDesiredTorque torques desired_torque
  { vars := [⟨0, some 1, some 1⟩, ⟨1, none, none⟩, ⟨1, none, none⟩,
      ⟨1, none, none⟩] ++
      List.replicate engines.length ⟨fuel_consumption_weight, some 0, some 1⟩,
    constraints := [
      ⟨(torques.enum.map fun p => (4 + p.1, p.2)) ++
        [(1, -1), (0, -desired_torque')], 0⟩,
      ⟨(torques.enum.map fun p => (4 + p.1, -p.2)) ++
        [(1, -1), (0, desired_torque')], 0⟩,
      ⟨(forces.enum.map fun p => (4 + p.1, p.2.x)) ++
        [(2, -1), (0, -desire.x)], 0⟩,
      ⟨(forces.enum.map fun p => (4 + p.1, -p.2.x)) ++
        [(2, -1), (0, desire.x)], 0⟩,
      ⟨(forces.enum.map fun p => (4 + p.1, p.2.y)) ++
        [(3, -1), (0, -desire.y)], 0⟩,
      ⟨(forces.enum.map fun p => (4 + p.1, -p.2.y)) ++
        [(3, -1), (0, desire.y)], 0⟩] }

/-- `calculate_firing` (`src/optimizer.rs`): build the LP, solve it
(`solve` models `minilp`; `none` models `Err`, which the source `unwrap`s),
and return the activation values rounded to two decimal digits. -/
def calculate_firing (solve : LPProblem → Option (Nat → ℚ))
    (normalize : Vec2 → Vec2) (engines : List REngine)
    (center_of_mass desired_force : Vec2) (desired_torque : ℚ) :
    Option (List ℚ) :=
  (solve (calcFiringProblem normalize engines center_of_mass desired_force
      desired_torque)).map
    fun sol => (List.range engines.length).map fun i => round2 (sol (4 + i))

/-- `estimate_acceleration` (`src/optimizer.rs`, lines 4–38), translated
directly: a fold over `engines.zip(firing)` accumulating linear and angular
acceleration for entries with `firing_amount > 0`. -/
def estimate_acceleration (inverse_moment_of_inertia_sqrt inverse_mass
    engine_scale : ℚ) (center_of_mass : Vec2) (engines : List REngine)
    (firing : List ℚ) : Vec2 × ℚ :=
  (engines.zip firing).foldl
    (fun acc ef =>
      if 0 < ef.2 then
        let distance_to_com := ef.1.position - center_of_mass
        let thrust_vector :=
          ((ef.1.thrust_vector.smul ef.1.max_thrust).smul ef.2).smul engine_scale
        let torque := Vec2.cross distance_to_com thrust_vector * (-1)
        (acc.1 + thrust_vector.smul inverse_mass,
         acc.2 + inverse_moment_of_inertia_sqrt *
           (inverse_moment_of_inertia_sqrt * torque))
      else acc)
    (⟨0, 0⟩, 0)

/-! ## `src/lib.rs` — the `Steering` component and the `steering` /
`invalidate_caches` systems. -/

/-- `CACHE_COARSENESS = std::f32::consts::PI / 10.0`: the exact value of the
`f32` computation (`f32` π is `13176795 / 2^22`; dividing by 10 lands exactly
on `10541436 / 2^25 = 2635359 / 2^23`). -/
def CACHE_COARSENESS : ℚ := 2635359 / 8388608

/-- `ThrustScale` resource default (`8000.0`). -/
def THRUST_SCALE_DEFAULT : ℚ := 8000

/-- `SubEngine`: body-part-local thrust vector and rating. -/
structure SubEngine where
  thrust_vector : Vec2
  max_thrust : ℚ
deriving DecidableEq, Repr

/-- A bevy `Transform` as the `steering` system consumes it: a translation
plus the action of its rotation quaternion on 2-D vectors (the quaternion
arithmetic itself is external `glam` code, modelled as an abstract map). -/
structure BTransform where
  translation : Vec2
  rot : Vec2 → Vec2

/-- The identity transform substituted for the parent entity. -/
def BTransform.identity : BTransform := ⟨⟨0, 0⟩, fun v => v⟩

/-- The engine-resolution loop of `steering` (`src/lib.rs`, lines 80–107):
the caller supplies, in sorted entity order, the `(Transform, Engine)` pairs
matched by `engine_query` (with the parent's transform already replaced by
the identity, as lines 90–94 do); each sub-engine yields
`(translation, rotation · thrust_vector, max_thrust)`. -/
def resolveEngines (parts : List (BTransform × List SubEngine)) :
    List (Vec2 × Vec2 × ℚ) :=
  parts.flatMap fun te =>
    te.2.map fun se => (te.1.translation, te.1.rot se.thrust_vector, se.max_thrust)

/-- The `Steering` component (`src/lib.rs`, lines 47–54). The `HashMap`
firing cache is modelled as an association list (newest entry first). -/
structure Steering where
  desired_force : Vec2
  desired_torque : ℚ
  last_seen_com : Vec2
  firings_cache : List ((ℤ × ℤ × ℤ) × List ℚ)
  engines : Option (List (Vec2 × Vec2 × ℚ))
deriving DecidableEq, Repr

/-- `HashMap` lookup on the association-list model. -/
def cacheLookup (c : List ((ℤ × ℤ × ℤ) × List ℚ)) (k : ℤ × ℤ × ℤ) :
    Option (List ℚ) :=
  match c with
  | [] => none
  | e :: t => if e.1 = k then some e.2 else cacheLookup t k

/-- Lines 110–116 of `steering`: clear the firing cache (and remember the
new value) when the center of mass moved more than `0.5` in squared
distance. -/
def comCheck (s : Steering) (center_of_mass : Vec2) : Steering :=
  if 1/2 < Vec2.distance_squared s.last_seen_com center_of_mass then
    { s with last_seen_com := center_of_mass, firings_cache := [] }
  else s

/-- The quantization key (lines 118–122): each component divided by
`CACHE_COARSENESS` and cast `as i32`. -/
def quantKey (desired_force : Vec2) (desired_torque : ℚ) : ℤ × ℤ × ℤ :=
  (rustTrunc (desired_force.x / CACHE_COARSENESS),
   rustTrunc (desired_force.y / CACHE_COARSENESS),
   rustTrunc (desired_torque / CACHE_COARSENESS))

/-- The `minilp` problem built inline by `steering` on a cache miss
(`src/lib.rs`, lines 132–203).  Unlike `calculate_firing` it uses the raw
(already rotated) thrust vectors without re-normalization, a
`torque_weight` of `1.0`, and a single symmetric torque scale
`total_torque = Σ |torque|`.  Variable indices as in `calcFiringProblem`. -/
def steeringProblem (engines : List (Vec2 × Vec2 × ℚ))
    (center_of_mass desired_force : Vec2) (desired_torque : ℚ) : LPProblem :=
  let total_thrust : ℚ := (engines.map fun e => e.2.2).sum
  let fuel_consumption_weight : ℚ := 1/10000
  let desire := desired_force.smul total_thrust
  let torques := engines.map fun e =>
    Vec2.cross (e.1 - center_of_mass) e.2.1 * 1
  let forces := engines.map fun e => e.2.1.smul 1
  let total_torque := (torques.map fun t => |t|).sum
  let desired_torque' := desired_torque * total_torque
  { vars := [⟨0, some 1, some 1⟩, ⟨1, none, none⟩, ⟨1, none, none⟩,
      ⟨1, none, none⟩] ++
      List.replicate engines.length ⟨fuel_consumption_weight, some 0, some 1⟩,
    constraints := [
      ⟨(torques.enum.map fun p => (4 + p.1, p.2)) ++
        [(1, -1), (0, -desired_torque')], 0⟩,
      ⟨(torques.enum.map fun p => (4 + p.1, -p.2)) ++
        [(1, -1), (0, desired_torque')], 0⟩,
      ⟨(forces.enum.map fun p => (4 + p.1, p.2.x)) ++
        [(2, -1), (0, -desire.x)], 0⟩,
      ⟨(forces.enum.map fun p => (4 + p.1, -p.2.x)) ++
        [(2, -1), (0, desire.x)], 0⟩,
      ⟨(forces.enum.map fun p => (4 + p.1, p.2.y)) ++
        [(3, -1), (0, -desire.y)], 0⟩,
      ⟨(forces.enum.map fun p => (4 + p.1, -p.2.y)) ++
        [(3, -1), (0, desire.y)], 0⟩] }

/-- The per-thruster impulse application loop (`src/lib.rs`, lines
209–225): for every engine whose cached firing value is `> 0`, apply an
impulse of `rotation·thrust_vector * max_thrust * thrust_scale` at the
world-space point `parent_transform · position`.  Returns the list of
`(application point, impulse)` pairs handed to
`body.apply_impulse_at_point`. -/
def appliedImpulses (parent_transform : BTransform) (thrust_scale : ℚ)
    (engines : List (Vec2 × Vec2 × ℚ)) (firing : List ℚ) :
    List (Vec2 × Vec2) :=
  (engines.zip firing).filterMap fun ef =>
    if 0 < ef.2 then
      some (parent_transform.translation + parent_transform.rot ef.1.1,
        ((parent_transform.rot ef.1.2.1).smul ef.1.2.2).smul thrust_scale)
    else none

/-- Everything the `steering` system reads for one body besides its
`Steering` component: the `ThrustScale` resource, the body's
`GlobalTransform`, its rapier `world_com`, the engine-resolution inputs,
and the external `minilp` solver. -/
structure StepCtx where
  thrust_scale : ℚ
  parent_transform : BTransform
  world_com : Vec2
  parts : List (BTransform × List SubEngine)
  solve : LPProblem → Option (Nat → ℚ)

/-- Lines 80–108 of `steering`: the engine list used this tick — the cached
resolution when present, otherwise a fresh `resolveEngines`. -/
def resolvedOf (ctx : StepCtx) (s : Steering) : List (Vec2 × Vec2 × ℚ) :=
  match s.engines with
  | some e => e
  | none => resolveEngines ctx.parts

/-- Lines 110–111: the body-local center of mass,
`world_com - parent_transform.translation`. -/
def stepCom (ctx : StepCtx) : Vec2 :=
  ctx.world_com - ctx.parent_transform.translation

/-- One `steering`-system pass for one body (`src/lib.rs`, lines 75–227).
Returns the updated `Steering` state, the firing vector used this tick, and
the applied impulses; `Except.error ()` models the panic of
`problem.solve().unwrap()` on line 204.  Bodies with a zero desire are
skipped (line 78). -/
def steeringStep (ctx : StepCtx) (s : Steering) :
    Except Unit (Steering × List ℚ × List (Vec2 × Vec2)) :=
  if s.desired_force ≠ ⟨0, 0⟩ ∨ s.desired_torque ≠ 0 then
    let engines := resolvedOf ctx s
    let center_of_mass := stepCom ctx
    let s2 := comCheck { s with engines := some engines } center_of_mass
    let key := quantKey s2.desired_force s2.desired_torque
    match cacheLookup s2.firings_cache key with
    | some firing =>
      .ok (s2, firing, appliedImpulses ctx.parent_transform ctx.thrust_scale
        engines firing)
    | none =>
      match ctx.solve (steeringProblem engines center_of_mass
          s2.desired_force s2.desired_torque) with
      | none => .error ()
      | some sol =>
        let firing := (List.range engines.length).map fun i => sol (4 + i)
        .ok ({ s2 with firings_cache := (key, firing) :: s2.firings_cache },
          firing,
          appliedImpulses ctx.parent_transform ctx.thrust_scale engines firing)
  else .ok (s, [], [])

/-- The per-body effect of the `invalidate_caches` system (`src/lib.rs`,
lines 231–249).  Its two queries are filtered by `Changed<Engine>`, and
bevy's `Changed<T>` filter matches only entities that CURRENTLY carry a
`T` component whose change tick is newer than the system's last run
(i.e. added or mutably accessed); an entity whose `Engine` component was
removed — or a despawned child — no longer has the component and matches
neither the parent query (`Changed<Engine>, With<Steering>`) nor the
child query (`Changed<Engine>, Without<Steering>`).  `parts` therefore
lists the body's and its children's currently present engine-carrying
parts (the same rows `steering`'s `engine_query` sees), each paired with
its `Changed<Engine>` flag.  The body's caches are cleared iff some
present `Engine` changed; a pure removal presents no changed row and
clears nothing. -/
def invalidate_caches (parts : List ((BTransform × List SubEngine) × Bool))
    (s : Steering) : Steering :=
  if parts.any fun pb => pb.2 then
    { s with firings_cache := [], engines := none }
  else s

/-! ## Helper algebra on `Vec2` -/

instance : Zero Vec2 := ⟨⟨0, 0⟩⟩

@[simp] theorem Vec2.zero_def : (0 : Vec2) = ⟨0, 0⟩ := rfl

instance : AddCommMonoid Vec2 where
  add_assoc a b c := by
    cases a; cases b; cases c
    simp only [Vec2.add_def, Vec2.mk.injEq]
    constructor <;> ring
  zero_add a := by cases a; simp
  add_zero a := by cases a; simp
  add_comm a b := by
    cases a; cases b
    simp only [Vec2.add_def, Vec2.mk.injEq]
    constructor <;> ring
  nsmul := nsmulRec

theorem Vec2.smul_add_dist (a b : Vec2) (c : ℚ) :
    (a + b).smul c = a.smul c + b.smul c := by
  cases a; cases b
  simp only [Vec2.add_def, Vec2.smul, Vec2.mk.injEq]
  constructor <;> ring

theorem Vec2.sum_map_smul (l : List Vec2) (c : ℚ) :
    (l.map fun v => v.smul c).sum = l.sum.smul c := by
  induction l with
  | nil => simp [Vec2.smul]
  | cons h t ih =>
    simp only [List.map_cons, List.sum_cons, ih, Vec2.smul_add_dist]

/-! ## Claim C10 — the acceleration estimator -/

/-- Active thrust vector of one `(engine, firing)` pair:
`thrust_vector * max_thrust * firing_amount * engine_scale`. -/
def activeThrust (engine_scale : ℚ) (ef : REngine × ℚ) : Vec2 :=
  ((ef.1.thrust_vector.smul ef.1.max_thrust).smul ef.2).smul engine_scale

/-- The estimator as claim C10 words it, for comparison with the source
translation `estimate_acceleration`: linear acceleration is `inverse_mass`
times the sum of active thrust vectors, angular acceleration is the
inverse-sqrt inertia applied twice times the sum of torque contributions,
each torque contribution being the cross product of
`(position − center_of_mass)` with the active thrust vector. -/
def estimateAccelerationClaimed (inverse_moment_of_inertia_sqrt inverse_mass
    engine_scale : ℚ) (center_of_mass : Vec2) (engines : List REngine)
    (firing : List ℚ) : Vec2 × ℚ :=
  let active := (engines.zip firing).filter fun ef => 0 < ef.2
  (((active.map (activeThrust engine_scale)).sum).smul inverse_mass,
   inverse_moment_of_inertia_sqrt * inverse_moment_of_inertia_sqrt *
     ((active.map fun ef =>
        Vec2.cross (ef.1.position - center_of_mass)
          (activeThrust engine_scale ef)).sum))

/-- Claim C10 amended: identical to `estimateAccelerationClaimed` except
that each torque contribution is the NEGATION of the cross product, as the
source multiplies by `-1.0`. -/
def estimateAccelerationAmended (inverse_moment_of_inertia_sqrt inverse_mass
    engine_scale : ℚ) (center_of_mass : Vec2) (engines : List REngine)
    (firing : List ℚ) : Vec2 × ℚ :=
  let active := (engines.zip firing).filter fun ef => 0 < ef.2
  (((active.map (activeThrust engine_scale)).sum).smul inverse_mass,
   inverse_moment_of_inertia_sqrt * inverse_moment_of_inertia_sqrt *
     ((active.map fun ef =>
        Vec2.cross (ef.1.position - center_of_mass)
          (activeThrust engine_scale ef) * (-1)).sum))

theorem estimate_fold_aux (q m es : ℚ) (com : Vec2)
    (l : List (REngine × ℚ)) :
    ∀ (a : Vec2) (b : ℚ),
    List.foldl (fun acc ef =>
        if 0 < ef.2 then
          (acc.1 + (activeThrust es ef).smul m,
           acc.2 + q * (q * (Vec2.cross (ef.1.position - com)
             (activeThrust es ef) * (-1))))
        else acc) (a, b) l
      = (a + ((l.filter fun ef => 0 < ef.2).map fun ef =>
            (activeThrust es ef).smul m).sum,
         b + q * q * (((l.filter fun ef => 0 < ef.2).map fun ef =>
            Vec2.cross (ef.1.position - com) (activeThrust es ef) * (-1)).sum)) := by
  induction l with
  | nil => intro a b; simp
  | cons hd tl ih =>
    intro a b
    by_cases h : 0 < hd.2
    · have hfil : List.filter (fun ef => decide (0 < ef.2)) (hd :: tl)
          = hd :: List.filter (fun ef => decide (0 < ef.2)) tl := by
        simp [List.filter_cons, h]
      rw [List.foldl_cons, if_pos h, ih, hfil]
      simp only [List.map_cons, List.sum_cons, Prod.mk.injEq]
      constructor
      · exact add_assoc _ _ _
      · ring
    · have hfil : List.filter (fun ef => decide (0 < ef.2)) (hd :: tl)
          = List.filter (fun ef => decide (0 < ef.2)) tl := by
        simp [List.filter_cons, h]
      rw [List.foldl_cons, if_neg h, ih, hfil]

/-- C10 (amended): `estimate_acceleration` computes exactly the claimed
linear acceleration, and the claimed angular acceleration with each torque
contribution NEGATED (the source multiplies the cross product by `-1.0`);
this holds for all inputs. -/
theorem C10_estimator_formula (q m es : ℚ) (com : Vec2)
    (engines : List REngine) (firing : List ℚ) :
    estimate_acceleration q m es com engines firing
      = estimateAccelerationAmended q m es com engines firing := by
  have h := estimate_fold_aux q m es com (engines.zip firing) 0 0
  have h2 : estimate_acceleration q m es com engines firing
      = ((0 : Vec2) + (((engines.zip firing).filter fun ef => 0 < ef.2).map
            fun ef => (activeThrust es ef).smul m).sum,
         (0 : ℚ) + q * q * ((((engines.zip firing).filter fun ef => 0 < ef.2).map
            fun ef => Vec2.cross (ef.1.position - com)
              (activeThrust es ef) * (-1)).sum)) := h
  have hsum : (((engines.zip firing).filter fun ef => 0 < ef.2).map
        fun ef => (activeThrust es ef).smul m).sum
      = ((((engines.zip firing).filter fun ef => 0 < ef.2).map
          (activeThrust es)).sum).smul m := by
    rw [← Vec2.sum_map_smul, List.map_map]
    rfl
  rw [h2, hsum, zero_add, zero_add]
  rfl

/-- C10 counterexample: a single thruster at `(1,0)` pushing `+y` with full
activation, unit mass/inertia/scale, center of mass at the origin.  The
cross product of moment arm and thrust is `+1`, so the claimed formula
gives angular acceleration `+1`, but `estimate_acceleration` returns `-1`:
the claim as stated is false. -/
theorem C10_torque_sign_cex :
    estimate_acceleration 1 1 1 ⟨0, 0⟩ [⟨⟨1, 0⟩, ⟨0, 1⟩, 1, (0, 0)⟩] [1]
        = (⟨0, 1⟩, -1)
      ∧ estimateAccelerationClaimed 1 1 1 ⟨0, 0⟩ [⟨⟨1, 0⟩, ⟨0, 1⟩, 1, (0, 0)⟩] [1]
        = (⟨0, 1⟩, 1)
      ∧ estimate_acceleration 1 1 1 ⟨0, 0⟩ [⟨⟨1, 0⟩, ⟨0, 1⟩, 1, (0, 0)⟩] [1]
        ≠ estimateAccelerationClaimed 1 1 1 ⟨0, 0⟩ [⟨⟨1, 0⟩, ⟨0, 1⟩, 1, (0, 0)⟩] [1] := by
  refine ⟨?_, ?_, ?_⟩
  · norm_num [estimate_acceleration, Vec2.smul, Vec2.cross]
  · norm_num [estimateAccelerationClaimed, activeThrust, Vec2.smul, Vec2.cross]
  · norm_num [estimate_acceleration, estimateAccelerationClaimed, activeThrust,
      Vec2.smul, Vec2.cross, Prod.ext_iff]

/-! ## Claim C1 — the applied impulse ignores the activation fraction -/

/-- C1: the impulse-application loop of `steering` applies
`direction * max_thrust * thrust_scale` whenever the cached activation is
positive — the activation value itself is NOT a factor.  Here a thruster
rated `10` with cached activation `1/2` (identity transform, unit thrust
scale) receives the full impulse `(0, 10)`, not the claimed
`direction * max_thrust * activation * thrust_scale = (0, 5)`. -/
theorem C1_impulse_ignores_activation :
    appliedImpulses ⟨⟨0, 0⟩, fun v => v⟩ 1 [(⟨0, 0⟩, ⟨0, 1⟩, 10)] [1/2]
        = [(⟨0, 0⟩, ⟨0, 10⟩)]
      ∧ (⟨0, 10⟩ : Vec2) ≠ (((⟨0, 1⟩ : Vec2).smul 10).smul (1/2)).smul 1 := by
  constructor
  · norm_num [appliedImpulses, Vec2.smul, List.filterMap_cons]
  · norm_num [Vec2.smul, Vec2.mk.injEq]

/-! ## Claim C8 — center-of-mass drift clears only the firing cache -/

/-- C8: when the center of mass has moved beyond the squared-distance
threshold `0.5` since the last check (lines 110–116 of `steering`, embedded
as `comCheck` and invoked by `steeringStep`), the firing cache is cleared
and the last-seen center of mass is updated, while the resolved engine
list and the desired force/torque are untouched. -/
theorem C8_com_drift_clears_only_cache (s : Steering) (com : Vec2)
    (h : 1/2 < Vec2.distance_squared s.last_seen_com com) :
    (comCheck s com).firings_cache = [] ∧
    (comCheck s com).engines = s.engines ∧
    (comCheck s com).last_seen_com = com ∧
    (comCheck s com).desired_force = s.desired_force ∧
    (comCheck s com).desired_torque = s.desired_torque := by
  unfold comCheck
  rw [if_pos h]
  exact ⟨rfl, rfl, rfl, rfl, rfl⟩

theorem C8_witness :
    (1/2 < Vec2.distance_squared (⟨0, 0⟩ : Vec2) ⟨1, 0⟩) ∧
    ((comCheck ⟨⟨1, 0⟩, 2, ⟨0, 0⟩, [((0, 0, 0), [1])],
        some [(⟨0, 0⟩, ⟨0, 1⟩, 1)]⟩ ⟨1, 0⟩).firings_cache = [] ∧
      (comCheck ⟨⟨1, 0⟩, 2, ⟨0, 0⟩, [((0, 0, 0), [1])],
        some [(⟨0, 0⟩, ⟨0, 1⟩, 1)]⟩ ⟨1, 0⟩).engines
        = (⟨⟨1, 0⟩, 2, ⟨0, 0⟩, [((0, 0, 0), [1])],
          some [(⟨0, 0⟩, ⟨0, 1⟩, 1)]⟩ : Steering).engines ∧
      (comCheck ⟨⟨1, 0⟩, 2, ⟨0, 0⟩, [((0, 0, 0), [1])],
        some [(⟨0, 0⟩, ⟨0, 1⟩, 1)]⟩ ⟨1, 0⟩).last_seen_com = ⟨1, 0⟩ ∧
      (comCheck ⟨⟨1, 0⟩, 2, ⟨0, 0⟩, [((0, 0, 0), [1])],
        some [(⟨0, 0⟩, ⟨0, 1⟩, 1)]⟩ ⟨1, 0⟩).desired_force
        = (⟨⟨1, 0⟩, 2, ⟨0, 0⟩, [((0, 0, 0), [1])],
          some [(⟨0, 0⟩, ⟨0, 1⟩, 1)]⟩ : Steering).desired_force ∧
      (comCheck ⟨⟨1, 0⟩, 2, ⟨0, 0⟩, [((0, 0, 0), [1])],
        some [(⟨0, 0⟩, ⟨0, 1⟩, 1)]⟩ ⟨1, 0⟩).desired_torque
        = (⟨⟨1, 0⟩, 2, ⟨0, 0⟩, [((0, 0, 0), [1])],
          some [(⟨0, 0⟩, ⟨0, 1⟩, 1)]⟩ : Steering).desired_torque) :=
  ⟨by norm_num [Vec2.distance_squared],
   C8_com_drift_clears_only_cache _ _ (by norm_num [Vec2.distance_squared])⟩

/-! ## Claim C9 — solver failure panics instead of being contained -/

/-- C9 counterexample: with a failing numeric solve (modelled by a `solve`
returning `none`, which line 204 of `steering` `unwrap`s), the `steering`
pass for a body with a nonzero desire ends in the panic outcome
`Except.error ()` — the whole system call aborts — rather than skipping
the body and reporting the failure as the claim states. -/
theorem C9_solver_failure_cex :
    steeringStep ⟨1, ⟨⟨0, 0⟩, fun v => v⟩, ⟨0, 0⟩,
        [(⟨⟨0, 0⟩, fun v => v⟩, [⟨⟨0, 1⟩, 1⟩])], fun _ => none⟩
      ⟨⟨1, 0⟩, 0, ⟨0, 0⟩, [], none⟩ = Except.error () := by
  simp [steeringStep, resolvedOf, stepCom, comCheck, quantKey, cacheLookup,
    resolveEngines, Vec2.distance_squared, rustTrunc, CACHE_COARSENESS]

/-! ## Structural lemmas about `comCheck`, `cacheLookup` and `steeringStep` -/

@[simp] theorem comCheck_desired_force (s : Steering) (c : Vec2) :
    (comCheck s c).desired_force = s.desired_force := by
  unfold comCheck; split <;> rfl

@[simp] theorem comCheck_desired_torque (s : Steering) (c : Vec2) :
    (comCheck s c).desired_torque = s.desired_torque := by
  unfold comCheck; split <;> rfl

@[simp] theorem comCheck_engines (s : Steering) (c : Vec2) :
    (comCheck s c).engines = s.engines := by
  unfold comCheck; split <;> rfl

theorem comCheck_cache_nil (s : Steering) (c : Vec2)
    (h : s.firings_cache = []) : (comCheck s c).firings_cache = [] := by
  unfold comCheck; split <;> simp [h]

theorem cacheLookup_cons_self (c : List ((ℤ × ℤ × ℤ) × List ℚ))
    (k : ℤ × ℤ × ℤ) (v : List ℚ) : cacheLookup ((k, v) :: c) k = some v := by
  simp [cacheLookup]

/-- C9 (amended): on a cache miss, if the numeric LP solve fails, the whole
`steering` pass for that body ends in the panic outcome (the source
`unwrap`s the `Result`): no impulse is applied, but the failure is a panic
that aborts the system rather than a contained, reported skip. -/
theorem C9_solver_failure_panics (ctx : StepCtx) (s : Steering)
    (hnz : s.desired_force ≠ ⟨0, 0⟩ ∨ s.desired_torque ≠ 0)
    (hcache : s.firings_cache = [])
    (hfail : ctx.solve (steeringProblem (resolvedOf ctx s) (stepCom ctx)
        s.desired_force s.desired_torque) = none) :
    steeringStep ctx s = Except.error () := by
  unfold steeringStep
  rw [if_pos hnz]
  have hc : (comCheck { s with engines := some (resolvedOf ctx s) }
      (stepCom ctx)).firings_cache = [] :=
    comCheck_cache_nil _ _ hcache
  have hres : resolvedOf ctx { s with engines := some (resolvedOf ctx s) }
      = resolvedOf ctx s := rfl
  simp only [comCheck_desired_force, comCheck_desired_torque, hc,
    cacheLookup, hfail]

theorem C9_solver_failure_witness :
    steeringStep ⟨1, ⟨⟨0, 0⟩, fun v => v⟩, ⟨0, 0⟩,
        [(⟨⟨0, 0⟩, fun v => v⟩, [⟨⟨0, 1⟩, 1⟩])], fun _ => none⟩
      ⟨⟨2, 0⟩, 0, ⟨0, 0⟩, [], none⟩ = Except.error () :=
  C9_solver_failure_panics _ _ (Or.inl (by simp)) rfl rfl

/-! ## Claim C3 — rounding before caching/returning -/

/-- C3 counterexample: the controller's inline solver (`steering`,
lines 131–207) stores the raw solver output in the firing cache and
returns it unrounded: with a solver yielding activation `0.123`, the
cached and returned vector is `[0.123]`, which is not equal to its
two-decimal rounding `0.12` — so unrounded solver output IS cached and
returned. -/
theorem C3_unrounded_cache_cex :
    steeringStep ⟨1, ⟨⟨0, 0⟩, fun v => v⟩, ⟨0, 0⟩,
        [(⟨⟨0, 0⟩, fun v => v⟩, [⟨⟨0, 1⟩, 1⟩])],
        fun _ => some fun _ => (123 : ℚ)/1000⟩
      ⟨⟨1, 0⟩, 0, ⟨0, 0⟩, [], none⟩
      = Except.ok (⟨⟨1, 0⟩, 0, ⟨0, 0⟩, [((3, 0, 0), [(123 : ℚ)/1000])],
          some [(⟨0, 0⟩, ⟨0, 1⟩, 1)]⟩,
        [(123 : ℚ)/1000], [(⟨0, 0⟩, ⟨0, 1⟩)])
    ∧ round2 ((123 : ℚ)/1000) ≠ (123 : ℚ)/1000 := by
  constructor
  · norm_num [steeringStep, resolvedOf, stepCom, comCheck, quantKey,
      cacheLookup, resolveEngines, appliedImpulses, Vec2.distance_squared,
      rustTrunc, CACHE_COARSENESS, Vec2.smul, Int.tdiv, List.filterMap_cons]
  · norm_num [round2, rustRound]

/-- C3 (amended): the standalone solver `calculate_firing`
(`src/optimizer.rs`) does round every activation it returns to two decimal
digits — every entry of its output is an integer multiple of `1/100`.
(The controller's inline LP copy in `steering` caches unrounded output; see
the counterexample.) -/
theorem C3_solver_output_two_decimals (solve : LPProblem → Option (Nat → ℚ))
    (normalize : Vec2 → Vec2) (engines : List REngine)
    (center_of_mass desired_force : Vec2) (desired_torque : ℚ)
    (out : List ℚ)
    (h : calculate_firing solve normalize engines center_of_mass
      desired_force desired_torque = some out) :
    ∀ q ∈ out, ∃ k : ℤ, q = (k : ℚ) / 100 := by
  unfold calculate_firing at h
  cases hs : solve (calcFiringProblem normalize engines center_of_mass
      desired_force desired_torque) with
  | none => rw [hs] at h; cases h
  | some sol =>
    rw [hs] at h
    simp only [Option.map_some', Option.some.injEq] at h
    intro q hq
    rw [← h] at hq
    obtain ⟨i, _, hqi⟩ := List.mem_map.mp hq
    exact ⟨rustRound (sol (4 + i) * 100), hqi ▸ rfl⟩

theorem C3_solver_output_witness :
    calculate_firing (fun _ => some fun _ => (123 : ℚ)/1000) (fun v => v)
        [⟨⟨0, 0⟩, ⟨0, 1⟩, 1, (0, 0)⟩] ⟨0, 0⟩ ⟨1, 0⟩ 0 = some [(3 : ℚ)/25]
    ∧ ∀ q ∈ [(3 : ℚ)/25], ∃ k : ℤ, q = (k : ℚ) / 100 :=
  ⟨by norm_num [calculate_firing, round2, rustRound],
   C3_solver_output_two_decimals (fun _ => some fun _ => (123 : ℚ)/1000)
     (fun v => v) [⟨⟨0, 0⟩, ⟨0, 1⟩, 1, (0, 0)⟩] ⟨0, 0⟩ ⟨1, 0⟩ 0 [(3 : ℚ)/25]
     (by norm_num [calculate_firing, round2, rustRound])⟩

/-! ## Claim C2 — asymmetric torque normalization in the solver -/

theorem positiveTorqueTotal_eq (l : List ℚ) :
    positiveTorqueTotal l = ((l.filter fun t => 0 < t).map fun t => |t|).sum := by
  unfold positiveTorqueTotal
  suffices h : ∀ a : ℚ, l.foldl (fun acc t => if 0 < t then acc + |t| else acc) a
      = a + ((l.filter fun t => 0 < t).map fun t => |t|).sum by
    rw [h 0, zero_add]
  induction l with
  | nil => intro a; simp
  | cons hd tl ih =>
    intro a
    by_cases hp : 0 < hd
    · have hfil : List.filter (fun t => decide (0 < t)) (hd :: tl)
          = hd :: List.filter (fun t => decide (0 < t)) tl := by
        simp [List.filter_cons, hp]
      rw [List.foldl_cons, if_pos hp, ih, hfil, List.map_cons, List.sum_cons]
      ring
    · have hfil : List.filter (fun t => decide (0 < t)) (hd :: tl)
          = List.filter (fun t => decide (0 < t)) tl := by
        simp [List.filter_cons, hp]
      rw [List.foldl_cons, if_neg hp, ih, hfil]

theorem negativeTorqueTotal_eq (l : List ℚ) :
    negativeTorqueTotal l
      = ((l.filter fun t => ¬ 0 < t).map fun t => |t|).sum := by
  unfold negativeTorqueTotal
  suffices h : ∀ a : ℚ, l.foldl (fun acc t => if 0 < t then acc else acc + |t|) a
      = a + ((l.filter fun t => ¬ 0 < t).map fun t => |t|).sum by
    rw [h 0, zero_add]
  induction l with
  | nil => intro a; simp
  | cons hd tl ih =>
    intro a
    by_cases hp : 0 < hd
    · have hfil : List.filter (fun t => decide ¬ 0 < t) (hd :: tl)
          = List.filter (fun t => decide ¬ 0 < t) tl := by
        simp [List.filter_cons, hp]
      rw [List.foldl_cons, if_pos hp, ih, hfil]
    · have hfil : List.filter (fun t => decide ¬ 0 < t) (hd :: tl)
          = hd :: List.filter (fun t => decide ¬ 0 < t) tl := by
        simp [List.filter_cons, hp]
      rw [List.foldl_cons, if_neg hp, ih, hfil, List.map_cons, List.sum_cons]
      ring

theorem getLast?_append_two {α : Type} (l : List α) (a b : α) :
    (l ++ [a, b]).getLast? = some b := by
  have h : l ++ [a, b] = (l ++ [a]) ++ [b] := by simp
  rw [h, List.getLast?_concat]

/-- C2: in the LP built by `calculate_firing`, the target coefficient
attached to `desire_var` in the two torque constraints is the desired
torque multiplied by the sum of achievable positive-torque contributions
when `desired_torque > 0`, and by the sum of achievable negative-torque
magnitudes when `desired_torque < 0` (negated for the `≤`-direction of the
first constraint). -/
theorem C2_asymmetric_torque_normalization (normalize : Vec2 → Vec2)
    (engines : List REngine) (center_of_mass desired_force : Vec2)
    (desired_torque : ℚ) :
    (0 < desired_torque →
      ((calcFiringProblem normalize engines center_of_mass desired_force
          desired_torque).constraints.getD 0 default).terms.getLast?
        = some (0, -(desired_torque *
            (((engineTorques normalize engines center_of_mass).filter
              fun t => 0 < t).map fun t => |t|).sum))
      ∧ ((calcFiringProblem normalize engines center_of_mass desired_force
          desired_torque).constraints.getD 1 default).terms.getLast?
        = some (0, desired_torque *
            (((engineTorques normalize engines center_of_mass).filter
              fun t => 0 < t).map fun t => |t|).sum))
    ∧ (desired_torque < 0 →
      ((calcFiringProblem normalize engines center_of_mass desired_force
          desired_torque).constraints.getD 0 default).terms.getLast?
        = some (0, -(desired_torque *
            (((engineTorques normalize engines center_of_mass).filter
              fun t => ¬ 0 < t).map fun t => |t|).sum))
      ∧ ((calcFiringProblem normalize engines center_of_mass desired_force
          desired_torque).constraints.getD 1 default).terms.getLast?
        = some (0, desired_torque *
            (((engineTorques normalize engines center_of_mass).filter
              fun t => ¬ 0 < t).map fun t => |t|).sum)) := by
  have hc0 : (calcFiringProblem normalize engines center_of_mass
      desired_force desired_torque).constraints.getD 0 default
      = ⟨((engineTorques normalize engines center_of_mass).enum.map
            fun p => (4 + p.1, p.2)) ++
          [(1, -1), (0, -(scaledDesiredTorque
            (engineTorques normalize engines center_of_mass)
            desired_torque))], 0⟩ := rfl
  have hc1 : (calcFiringProblem normalize engines center_of_mass
      desired_force desired_torque).constraints.getD 1 default
      = ⟨((engineTorques normalize engines center_of_mass).enum.map
            fun p => (4 + p.1, -p.2)) ++
          [(1, -1), (0, scaledDesiredTorque
            (engineTorques normalize engines center_of_mass)
            desired_torque)], 0⟩ := rfl
  constructor
  · intro hdt
    have hs : scaledDesiredTorque (engineTorques normalize engines
        center_of_mass) desired_torque
        = desired_torque *
          (((engineTorques normalize engines center_of_mass).filter
            fun t => 0 < t).map fun t => |t|).sum := by
      rw [scaledDesiredTorque, if_pos hdt, positiveTorqueTotal_eq]
    rw [hc0, hc1]
    constructor <;> rw [getLast?_append_two, hs]
  · intro hdt
    have hs : scaledDesiredTorque (engineTorques normalize engines
        center_of_mass) desired_torque
        = desired_torque *
          (((engineTorques normalize engines center_of_mass).filter
            fun t => ¬ 0 < t).map fun t => |t|).sum := by
      rw [scaledDesiredTorque, if_neg (by linarith), negativeTorqueTotal_eq]
    rw [hc0, hc1]
    constructor <;> rw [getLast?_append_two, hs]

theorem C2_witness :
    (0 < (1 : ℚ)/2 ∧
      (((calcFiringProblem (fun v => v) [⟨⟨1, 0⟩, ⟨0, 1⟩, 1, (0, 0)⟩] ⟨0, 0⟩
          ⟨0, 0⟩ ((1 : ℚ)/2)).constraints.getD 0 default).terms.getLast?
        = some (0, -((1 : ℚ)/2 *
            (((engineTorques (fun v => v) [⟨⟨1, 0⟩, ⟨0, 1⟩, 1, (0, 0)⟩]
              ⟨0, 0⟩).filter fun t => 0 < t).map fun t => |t|).sum))
      ∧ ((calcFiringProblem (fun v => v) [⟨⟨1, 0⟩, ⟨0, 1⟩, 1, (0, 0)⟩] ⟨0, 0⟩
          ⟨0, 0⟩ ((1 : ℚ)/2)).constraints.getD 1 default).terms.getLast?
        = some (0, (1 : ℚ)/2 *
            (((engineTorques (fun v => v) [⟨⟨1, 0⟩, ⟨0, 1⟩, 1, (0, 0)⟩]
              ⟨0, 0⟩).filter fun t => 0 < t).map fun t => |t|).sum)))
    ∧ ((-1 : ℚ)/2 < 0 ∧
      (((calcFiringProblem (fun v => v) [⟨⟨1, 0⟩, ⟨0, 1⟩, 1, (0, 0)⟩] ⟨0, 0⟩
          ⟨0, 0⟩ ((-1 : ℚ)/2)).constraints.getD 0 default).terms.getLast?
        = some (0, -((-1 : ℚ)/2 *
            (((engineTorques (fun v => v) [⟨⟨1, 0⟩, ⟨0, 1⟩, 1, (0, 0)⟩]
              ⟨0, 0⟩).filter fun t => ¬ 0 < t).map fun t => |t|).sum))
      ∧ ((calcFiringProblem (fun v => v) [⟨⟨1, 0⟩, ⟨0, 1⟩, 1, (0, 0)⟩] ⟨0, 0⟩
          ⟨0, 0⟩ ((-1 : ℚ)/2)).constraints.getD 1 default).terms.getLast?
        = some (0, (-1 : ℚ)/2 *
            (((engineTorques (fun v => v) [⟨⟨1, 0⟩, ⟨0, 1⟩, 1, (0, 0)⟩]
              ⟨0, 0⟩).filter fun t => ¬ 0 < t).map fun t => |t|).sum))) :=
  ⟨⟨by norm_num, (C2_asymmetric_torque_normalization (fun v => v)
      [⟨⟨1, 0⟩, ⟨0, 1⟩, 1, (0, 0)⟩] ⟨0, 0⟩ ⟨0, 0⟩ ((1 : ℚ)/2)).1 (by norm_num)⟩,
   ⟨by norm_num, (C2_asymmetric_torque_normalization (fun v => v)
      [⟨⟨1, 0⟩, ⟨0, 1⟩, 1, (0, 0)⟩] ⟨0, 0⟩ ⟨0, 0⟩ ((-1 : ℚ)/2)).2 (by norm_num)⟩⟩

/-! ## Generic lemmas about the LP embedding -/

theorem wsum_nil (x : Nat → ℚ) : wsum x [] = 0 := rfl

theorem wsum_cons (x : Nat → ℚ) (p : Nat × ℚ) (l : List (Nat × ℚ)) :
    wsum x (p :: l) = p.2 * x p.1 + wsum x l := by
  simp [wsum]

theorem wsum_append (x : Nat → ℚ) (l1 l2 : List (Nat × ℚ)) :
    wsum x (l1 ++ l2) = wsum x l1 + wsum x l2 := by
  simp [wsum]

theorem wsum_enumNeg (x : Nat → ℚ) (m : List (Nat × ℚ)) (k : Nat) :
    wsum x (m.map fun p => (k + p.1, -p.2))
      = -wsum x (m.map fun p => (k + p.1, p.2)) := by
  induction m with
  | nil => simp [wsum]
  | cons h t ih =>
    simp only [List.map_cons, wsum_cons, ih]
    ring

/-- The assignment that sets `desire_var` to its fixed value `1` and every
other variable to `0` — the reference feasible point for a zero request. -/
def desireOnlyAssign : Nat → ℚ := fun i => if i = 0 then 1 else 0

theorem desireOnlyAssign_pos (i k : Nat) (hk : 0 < k) :
    desireOnlyAssign (k + i) = 0 := by
  unfold desireOnlyAssign
  rw [if_neg (by omega)]

theorem wsum_enum_desireOnly (m : List (Nat × ℚ)) (k : Nat) (hk : 0 < k)
    (f : Nat × ℚ → ℚ) :
    wsum desireOnlyAssign (m.map fun p => (k + p.1, f p)) = 0 := by
  induction m with
  | nil => simp [wsum]
  | cons h t ih =>
    simp only [List.map_cons, wsum_cons, ih]
    rw [desireOnlyAssign_pos _ _ hk]
    ring

theorem boundsOK_replicate_elim (v : LPVar) (x : Nat → ℚ) :
    ∀ (n k : Nat), boundsOK (List.replicate n v) k x →
      ∀ i < n, boundOK v (x (k + i))
  | 0, _, _ => by omega
  | n + 1, k, h => by
    intro i hi
    rw [List.replicate_succ] at h
    obtain ⟨h0, hrest⟩ := h
    rcases Nat.eq_zero_or_pos i with hz | hp
    · subst hz; simpa using h0
    · have := boundsOK_replicate_elim v x n (k + 1) hrest (i - 1) (by omega)
      have harith : k + 1 + (i - 1) = k + i := by omega
      rwa [harith] at this

theorem boundsOK_replicate_intro (v : LPVar) (x : Nat → ℚ) :
    ∀ (n k : Nat), (∀ i < n, boundOK v (x (k + i))) →
      boundsOK (List.replicate n v) k x
  | 0, _, _ => trivial
  | n + 1, k, h => by
    rw [List.replicate_succ]
    refine ⟨by simpa using h 0 (by omega), ?_⟩
    refine boundsOK_replicate_intro v x n (k + 1) fun i hi => ?_
    have harith : k + 1 + i = k + (i + 1) := by omega
    rw [harith]
    exact h (i + 1) (by omega)

theorem objTerms_replicate (v : LPVar) (x : Nat → ℚ) :
    ∀ (n k : Nat), objTerms (List.replicate n v) k x
      = v.obj * ((List.range n).map fun i => x (k + i)).sum
  | 0, _ => by simp [objTerms]
  | n + 1, k => by
    have hstep : objTerms (List.replicate (n + 1) v) k x
        = v.obj * x k + objTerms (List.replicate n v) (k + 1) x := by
      rw [List.replicate_succ]
      rfl
    rw [hstep, objTerms_replicate v x n (k + 1), List.range_succ_eq_map]
    rw [List.map_cons, List.map_map, List.sum_cons]
    have hmap : (List.range n).map ((fun i => x (k + i)) ∘ Nat.succ)
        = (List.range n).map fun i => x (k + 1 + i) := by
      refine List.map_congr_left fun i _ => ?_
      simp only [Function.comp_apply]
      exact congrArg x (by omega)
    rw [hmap]
    simp only [Nat.add_zero]
    ring

theorem wsum_mapNeg {α : Type} (x : Nat → ℚ) (m : List (Nat × α)) (k : Nat)
    (f : α → ℚ) :
    wsum x (m.map fun p => (k + p.1, -f p.2))
      = -wsum x (m.map fun p => (k + p.1, f p.2)) := by
  induction m with
  | nil => simp [wsum]
  | cons h t ih =>
    simp only [List.map_cons, wsum_cons, ih]
    ring

theorem wsum_desireOnly_of_pos (m : List (Nat × ℚ))
    (hm : ∀ p ∈ m, 0 < p.1) : wsum desireOnlyAssign m = 0 := by
  induction m with
  | nil => rfl
  | cons h t ih =>
    rw [wsum_cons, ih fun p hp => hm p (List.mem_cons_of_mem _ hp)]
    have h0 : desireOnlyAssign h.1 = 0 := by
      unfold desireOnlyAssign
      rw [if_neg]
      have := hm h (List.mem_cons_self _ _)
      omega
    rw [h0]
    ring

theorem list_sum_zero_of_nonneg (l : List ℚ) (h0 : ∀ a ∈ l, 0 ≤ a)
    (hs : l.sum = 0) : ∀ a ∈ l, a = 0 := by
  induction l with
  | nil => simp
  | cons hd tl ih =>
    have hhd : 0 ≤ hd := h0 _ (by simp)
    have htl : 0 ≤ tl.sum := List.sum_nonneg fun a ha => h0 a (by simp [ha])
    rw [List.sum_cons] at hs
    intro a ha
    rcases List.mem_cons.mp ha with rfl | ha2
    · linarith
    · exact ih (fun b hb => h0 b (by simp [hb])) (by linarith) a ha2

theorem scaledDesiredTorque_zero (ts : List ℚ) : scaledDesiredTorque ts 0 = 0 := by
  simp [scaledDesiredTorque]

theorem Vec2.zero_smul_vec (c : ℚ) : (⟨0, 0⟩ : Vec2).smul c = ⟨0, 0⟩ := by
  simp [Vec2.smul]

/-- The variable list of any `calculate_firing` LP. -/
theorem calcFiring_vars (normalize : Vec2 → Vec2) (engines : List REngine)
    (com df : Vec2) (dt : ℚ) :
    (calcFiringProblem normalize engines com df dt).vars
      = [⟨0, some 1, some 1⟩, ⟨1, none, none⟩, ⟨1, none, none⟩,
          ⟨1, none, none⟩] ++
        List.replicate engines.length ⟨1/10000, some 0, some 1⟩ := rfl

/-- The constraint list of a zero-request `calculate_firing` LP: every
target coefficient on `desire_var` vanishes. -/
theorem zeroReq_constraints (normalize : Vec2 → Vec2) (engines : List REngine)
    (com : Vec2) :
    (calcFiringProblem normalize engines com ⟨0, 0⟩ 0).constraints
      = [⟨((engineTorques normalize engines com).enum.map
            fun p => (4 + p.1, p.2)) ++ [(1, -1), (0, 0)], 0⟩,
         ⟨((engineTorques normalize engines com).enum.map
            fun p => (4 + p.1, -p.2)) ++ [(1, -1), (0, 0)], 0⟩,
         ⟨((engineForces normalize engines).enum.map
            fun p => (4 + p.1, p.2.x)) ++ [(2, -1), (0, 0)], 0⟩,
         ⟨((engineForces normalize engines).enum.map
            fun p => (4 + p.1, -p.2.x)) ++ [(2, -1), (0, 0)], 0⟩,
         ⟨((engineForces normalize engines).enum.map
            fun p => (4 + p.1, p.2.y)) ++ [(3, -1), (0, 0)], 0⟩,
         ⟨((engineForces normalize engines).enum.map
            fun p => (4 + p.1, -p.2.y)) ++ [(3, -1), (0, 0)], 0⟩] := by
  unfold calcFiringProblem
  simp [scaledDesiredTorque_zero, Vec2.zero_smul_vec]

/-- Expansion of the objective of any `calculate_firing` LP. -/
theorem calcFiring_objective_expand (normalize : Vec2 → Vec2)
    (engines : List REngine) (com df : Vec2) (dt : ℚ) (y : Nat → ℚ) :
    objective (calcFiringProblem normalize engines com df dt) y
      = y 1 + y 2 + y 3 +
        (1/10000) * ((List.range engines.length).map fun i => y (4 + i)).sum := by
  have h : objective (calcFiringProblem normalize engines com df dt) y
      = 0 * y 0 + (1 * y 1 + (1 * y 2 + (1 * y 3 +
          objTerms (List.replicate engines.length ⟨1/10000, some 0, some 1⟩)
            4 y))) := rfl
  rw [h, objTerms_replicate]
  ring

/-- Feasibility for a zero-request LP forces the three error variables to be
nonnegative and keeps every activation variable inside its box. -/
theorem zeroReq_feasible_parts (normalize : Vec2 → Vec2)
    (engines : List REngine) (com : Vec2) (y : Nat → ℚ)
    (hy : feasibleFor (calcFiringProblem normalize engines com ⟨0, 0⟩ 0) y) :
    0 ≤ y 1 ∧ 0 ≤ y 2 ∧ 0 ≤ y 3 ∧
      ∀ i < engines.length, 0 ≤ y (4 + i) ∧ y (4 + i) ≤ 1 := by
  obtain ⟨hb, hc⟩ := hy
  rw [zeroReq_constraints] at hc
  simp only [List.forall_mem_cons] at hc
  obtain ⟨h1, h2, h3, h4, h5, h6, -⟩ := hc
  rw [wsum_append] at h1 h2 h3 h4 h5 h6
  have hneg2 : wsum y ((engineTorques normalize engines com).enum.map
        fun p => (4 + p.1, -p.2))
      = -wsum y ((engineTorques normalize engines com).enum.map
        fun p => (4 + p.1, p.2)) := wsum_mapNeg y _ 4 (fun a => a)
  have hneg4 : wsum y ((engineForces normalize engines).enum.map
        fun p => (4 + p.1, -p.2.x))
      = -wsum y ((engineForces normalize engines).enum.map
        fun p => (4 + p.1, p.2.x)) := wsum_mapNeg y _ 4 (fun v : Vec2 => v.x)
  have hneg6 : wsum y ((engineForces normalize engines).enum.map
        fun p => (4 + p.1, -p.2.y))
      = -wsum y ((engineForces normalize engines).enum.map
        fun p => (4 + p.1, p.2.y)) := wsum_mapNeg y _ 4 (fun v : Vec2 => v.y)
  rw [hneg2] at h2
  rw [hneg4] at h4
  rw [hneg6] at h6
  have htail : ∀ j : Nat, wsum y [(j, -1), (0, 0)] = -y j := by
    intro j
    simp [wsum]
  rw [htail 1] at h1 h2
  rw [htail 2] at h3 h4
  rw [htail 3] at h5 h6
  rw [calcFiring_vars] at hb
  simp only [List.cons_append, List.nil_append, boundsOK] at hb
  obtain ⟨-, -, -, -, hbrep⟩ := hb
  refine ⟨by linarith, by linarith, by linarith, fun i hi => ?_⟩
  have := boundsOK_replicate_elim _ y engines.length 4 hbrep i hi
  simpa [boundOK] using this

/-- The desire-only assignment is feasible for any zero-request LP. -/
theorem desireOnly_feasible (normalize : Vec2 → Vec2)
    (engines : List REngine) (com : Vec2) :
    feasibleFor (calcFiringProblem normalize engines com ⟨0, 0⟩ 0)
      desireOnlyAssign := by
  constructor
  · rw [calcFiring_vars]
    simp only [List.cons_append, List.nil_append, boundsOK]
    refine ⟨?_, ?_, ?_, ?_, ?_⟩
    · simp [boundOK, desireOnlyAssign]
    · simp [boundOK]
    · simp [boundOK]
    · simp [boundOK]
    · refine boundsOK_replicate_intro _ _ engines.length 4 fun i hi => ?_
      rw [desireOnlyAssign_pos i 4 (by omega)]
      simp [boundOK]
  · rw [zeroReq_constraints]
    intro c hc
    simp only [List.mem_cons, List.not_mem_nil, or_false] at hc
    rcases hc with rfl | rfl | rfl | rfl | rfl | rfl <;>
    · rw [show wsum desireOnlyAssign _ ≤ _ ↔ True from iff_of_true ?_ trivial]
      · trivial
      rw [wsum_append, wsum_desireOnly_of_pos _ (by
        intro p hp
        obtain ⟨q, -, rfl⟩ := List.mem_map.mp hp
        omega)]
      simp [wsum, desireOnlyAssign]

/-- Core of the zero-request property: any optimal solution of a
zero-request `calculate_firing` LP has every activation variable exactly 0
(the fuel-cost weight `1/10000` is strictly positive, the error variables
are forced nonnegative, and the desire-only point already achieves
objective 0). -/
theorem zeroReq_optimal_activations_zero (normalize : Vec2 → Vec2)
    (engines : List REngine) (com : Vec2) (x : Nat → ℚ)
    (hx : optimalFor (calcFiringProblem normalize engines com ⟨0, 0⟩ 0) x) :
    ∀ i < engines.length, x (4 + i) = 0 := by
  obtain ⟨hfeas, hmin⟩ := hx
  obtain ⟨hx1, hx2, hx3, hxact⟩ := zeroReq_feasible_parts _ _ _ _ hfeas
  have hS_nonneg :
      0 ≤ ((List.range engines.length).map fun i => x (4 + i)).sum :=
    List.sum_nonneg (by
      intro a ha
      obtain ⟨i, hi, rfl⟩ := List.mem_map.mp ha
      exact (hxact i (List.mem_range.mp hi)).1)
  have hzobj : objective (calcFiringProblem normalize engines com ⟨0, 0⟩ 0)
      desireOnlyAssign = 0 := by
    rw [calcFiring_objective_expand]
    have hmap : ((List.range engines.length).map
          fun i => desireOnlyAssign (4 + i))
        = (List.range engines.length).map fun _ => (0 : ℚ) :=
      List.map_congr_left fun i _ => desireOnlyAssign_pos i 4 (by omega)
    have hz : ((List.range engines.length).map fun _ => (0 : ℚ)).sum = 0 :=
      List.sum_eq_zero (by simp)
    rw [hmap, hz]
    simp [desireOnlyAssign]
  have hle : objective (calcFiringProblem normalize engines com ⟨0, 0⟩ 0) x
      ≤ 0 := le_of_le_of_eq (hmin _ (desireOnly_feasible _ _ _)) hzobj
  rw [calcFiring_objective_expand] at hle
  have hSzero :
      ((List.range engines.length).map fun i => x (4 + i)).sum = 0 := by
    linarith
  intro i hi
  exact list_sum_zero_of_nonneg _
    (by
      intro a ha
      obtain ⟨j, hj, rfl⟩ := List.mem_map.mp ha
      exact (hxact j (List.mem_range.mp hj)).1)
    hSzero _ (List.mem_map.mpr ⟨i, List.mem_range.mpr hi, rfl⟩)

theorem round2_zero : round2 0 = 0 := by
  norm_num [round2, rustRound]

theorem desireOnly_objective_zero (normalize : Vec2 → Vec2)
    (engines : List REngine) (com df : Vec2) (dt : ℚ) :
    objective (calcFiringProblem normalize engines com df dt)
      desireOnlyAssign = 0 := by
  rw [calcFiring_objective_expand]
  have hmap : ((List.range engines.length).map
        fun i => desireOnlyAssign (4 + i))
      = (List.range engines.length).map fun _ => (0 : ℚ) :=
    List.map_congr_left fun i _ => desireOnlyAssign_pos i 4 (by omega)
  have hz : ((List.range engines.length).map fun _ => (0 : ℚ)).sum = 0 :=
    List.sum_eq_zero (by simp)
  rw [hmap, hz]
  simp [desireOnlyAssign]

theorem zeroReq_objective_nonneg (normalize : Vec2 → Vec2)
    (engines : List REngine) (com : Vec2) (y : Nat → ℚ)
    (hy : feasibleFor (calcFiringProblem normalize engines com ⟨0, 0⟩ 0) y) :
    0 ≤ objective (calcFiringProblem normalize engines com ⟨0, 0⟩ 0) y := by
  obtain ⟨h1, h2, h3, hact⟩ := zeroReq_feasible_parts _ _ _ _ hy
  rw [calcFiring_objective_expand]
  have hS : 0 ≤ ((List.range engines.length).map fun i => y (4 + i)).sum :=
    List.sum_nonneg (by
      intro a ha
      obtain ⟨i, hi, rfl⟩ := List.mem_map.mp ha
      exact (hact i (List.mem_range.mp hi)).1)
  linarith

/-- C4: a zero request yields an all-zero allocation.  (1) The controller
fast path (line 78) skips the body entirely: the state is unchanged and no
firing value or impulse is produced.  (2) Any optimal solution of the
zero-request solver LP has every activation variable exactly 0.  (3) Hence
`calculate_firing`, run with a solver returning such an optimal solution,
returns the all-zero activation vector (rounding preserves the zeros). -/
theorem C4_zero_request_idempotence :
    (∀ (ctx : StepCtx) (s : Steering), s.desired_force = ⟨0, 0⟩ →
      s.desired_torque = 0 → steeringStep ctx s = Except.ok (s, [], []))
    ∧ (∀ (normalize : Vec2 → Vec2) (engines : List REngine) (com : Vec2)
        (x : Nat → ℚ),
        optimalFor (calcFiringProblem normalize engines com ⟨0, 0⟩ 0) x →
        ∀ i < engines.length, x (4 + i) = 0)
    ∧ (∀ (solve : LPProblem → Option (Nat → ℚ)) (normalize : Vec2 → Vec2)
        (engines : List REngine) (com : Vec2) (x : Nat → ℚ),
        solve (calcFiringProblem normalize engines com ⟨0, 0⟩ 0) = some x →
        optimalFor (calcFiringProblem normalize engines com ⟨0, 0⟩ 0) x →
        calculate_firing solve normalize engines com ⟨0, 0⟩ 0
          = some (List.replicate engines.length 0)) := by
  refine ⟨?_, zeroReq_optimal_activations_zero, ?_⟩
  · intro ctx s h1 h2
    unfold steeringStep
    rw [if_neg (by simp [h1, h2])]
  · intro solve normalize engines com x hs hopt
    unfold calculate_firing
    rw [hs]
    simp only [Option.map_some', Option.some.injEq]
    refine List.eq_replicate_iff.mpr ⟨by simp, ?_⟩
    intro b hb
    obtain ⟨i, hi, rfl⟩ := List.mem_map.mp hb
    rw [zeroReq_optimal_activations_zero _ _ _ _ hopt i (List.mem_range.mp hi)]
    exact round2_zero

theorem C4_zero_request_witness :
    steeringStep ⟨1, ⟨⟨0, 0⟩, fun v => v⟩, ⟨0, 0⟩, [], fun _ => none⟩
        ⟨⟨0, 0⟩, 0, ⟨0, 0⟩, [], none⟩
      = Except.ok (⟨⟨0, 0⟩, 0, ⟨0, 0⟩, [], none⟩, [], [])
    ∧ (∀ i < ([⟨⟨1, 0⟩, ⟨0, 1⟩, 1, (0, 0)⟩] : List REngine).length,
        desireOnlyAssign (4 + i) = 0)
    ∧ calculate_firing (fun _ => some desireOnlyAssign) (fun v => v)
        [⟨⟨1, 0⟩, ⟨0, 1⟩, 1, (0, 0)⟩] ⟨0, 0⟩ ⟨0, 0⟩ 0
      = some (List.replicate 1 0) := by
  have hopt : optimalFor (calcFiringProblem (fun v => v)
      [⟨⟨1, 0⟩, ⟨0, 1⟩, 1, (0, 0)⟩] ⟨0, 0⟩ ⟨0, 0⟩ 0) desireOnlyAssign :=
    ⟨desireOnly_feasible _ _ _, fun y hy => by
      rw [desireOnly_objective_zero]
      exact zeroReq_objective_nonneg _ _ _ _ hy⟩
  exact ⟨C4_zero_request_idempotence.1 _ _ rfl rfl,
    C4_zero_request_idempotence.2.1 _ _ _ _ hopt,
    C4_zero_request_idempotence.2.2 _ _ _ _ _ rfl hopt⟩

/-! ## Claim C5 — activations stay in `[0,1]`, also after rounding -/

theorem round2_unit (q : ℚ) (h0 : 0 ≤ q) (h1 : q ≤ 1) :
    0 ≤ round2 q ∧ round2 q ≤ 1 := by
  unfold round2 rustRound
  rw [if_pos (by linarith : (0 : ℚ) ≤ q * 100)]
  constructor
  · refine div_nonneg ?_ (by norm_num)
    exact_mod_cast Int.floor_nonneg.mpr (by linarith)
  · rw [div_le_one (by norm_num : (0 : ℚ) < 100)]
    have hmono : ⌊q * 100 + 1/2⌋ ≤ ⌊(201 : ℚ)/2⌋ :=
      Int.floor_le_floor (by linarith)
    have hval : ⌊(201 : ℚ)/2⌋ = 100 := by norm_num
    rw [hval] at hmono
    exact_mod_cast hmono

/-- C5: whenever the external solve returns an assignment that respects the
LP's variable bounds (as `minilp` guarantees for a successful solve), every
entry of the vector returned by `calculate_firing` lies in `[0,1]`, and
this survives the two-decimal rounding step. -/
theorem C5_activation_range (solve : LPProblem → Option (Nat → ℚ))
    (normalize : Vec2 → Vec2) (engines : List REngine) (com df : Vec2)
    (dt : ℚ) (sol : Nat → ℚ) (out : List ℚ)
    (hs : solve (calcFiringProblem normalize engines com df dt) = some sol)
    (hb : boundsOK (calcFiringProblem normalize engines com df dt).vars 0 sol)
    (hout : calculate_firing solve normalize engines com df dt = some out) :
    ∀ q ∈ out, 0 ≤ q ∧ q ≤ 1 := by
  unfold calculate_firing at hout
  rw [hs] at hout
  simp only [Option.map_some', Option.some.injEq] at hout
  intro q hq
  rw [← hout] at hq
  obtain ⟨i, hi, rfl⟩ := List.mem_map.mp hq
  rw [calcFiring_vars] at hb
  simp only [List.cons_append, List.nil_append, boundsOK] at hb
  obtain ⟨-, -, -, -, hbrep⟩ := hb
  have hbi := boundsOK_replicate_elim _ sol engines.length 4 hbrep i
    (List.mem_range.mp hi)
  simp only [boundOK] at hbi
  exact round2_unit _ hbi.1 hbi.2

theorem C5_activation_range_witness :
    calculate_firing (fun _ => some fun i => if i = 0 then (1 : ℚ) else 1/2)
        (fun v => v) [⟨⟨1, 0⟩, ⟨0, 1⟩, 1, (0, 0)⟩] ⟨0, 0⟩ ⟨1, 0⟩ 0
      = some [(1 : ℚ)/2]
    ∧ ∀ q ∈ [(1 : ℚ)/2], 0 ≤ q ∧ q ≤ 1 :=
  ⟨by norm_num [calculate_firing, round2, rustRound, List.range_succ],
   C5_activation_range (fun _ => some fun i => if i = 0 then (1 : ℚ) else 1/2)
     (fun v => v) [⟨⟨1, 0⟩, ⟨0, 1⟩, 1, (0, 0)⟩] ⟨0, 0⟩ ⟨1, 0⟩ 0
     (fun i => if i = 0 then (1 : ℚ) else 1/2) [(1 : ℚ)/2] rfl
     (by norm_num [calcFiring_vars, boundsOK, boundOK, List.replicate])
     (by norm_num [calculate_firing, round2, rustRound, List.range_succ])⟩

theorem Vec2.distance_squared_self (v : Vec2) : Vec2.distance_squared v v = 0 := by
  simp [Vec2.distance_squared]

theorem comCheck_of_close (s : Steering) (c : Vec2)
    (h : ¬ 1/2 < Vec2.distance_squared s.last_seen_com c) :
    comCheck s c = s := by
  unfold comCheck
  rw [if_neg h]

/-- A cache hit: with resolved engines, no center-of-mass drift and the key
present, `steeringStep` returns the cached vector unchanged. -/
theorem steeringStep_cache_hit (ctx : StepCtx) (s : Steering)
    (E : List (Vec2 × Vec2 × ℚ)) (v : List ℚ)
    (hE : s.engines = some E)
    (hclose : ¬ 1/2 < Vec2.distance_squared s.last_seen_com (stepCom ctx))
    (hnz : s.desired_force ≠ ⟨0, 0⟩ ∨ s.desired_torque ≠ 0)
    (hhit : cacheLookup s.firings_cache
      (quantKey s.desired_force s.desired_torque) = some v) :
    steeringStep ctx s = Except.ok ({ s with engines := some E }, v,
      appliedImpulses ctx.parent_transform ctx.thrust_scale E v) := by
  unfold steeringStep
  rw [if_pos hnz]
  have hres : resolvedOf ctx s = E := by rw [resolvedOf, hE]
  have hcc : comCheck { s with engines := some E } (stepCom ctx)
      = { s with engines := some E } := comCheck_of_close _ _ hclose
  simp only [hres, hcc, hhit]

/-- What a successful non-skipped `steering` pass guarantees about its
result: desire unchanged, engines resolved, the returned firing vector
stored under the request's quantization key, and the recorded center of
mass within the drift threshold. -/
theorem steeringStep_ok_facts (ctx : StepCtx) (s s1 : Steering) (v : List ℚ)
    (out : List (Vec2 × Vec2))
    (hnz : s.desired_force ≠ ⟨0, 0⟩ ∨ s.desired_torque ≠ 0)
    (h : steeringStep ctx s = Except.ok (s1, v, out)) :
    s1.desired_force = s.desired_force ∧
    s1.desired_torque = s.desired_torque ∧
    s1.engines = some (resolvedOf ctx s) ∧
    cacheLookup s1.firings_cache
      (quantKey s.desired_force s.desired_torque) = some v ∧
    ¬ 1/2 < Vec2.distance_squared s1.last_seen_com (stepCom ctx) := by
  unfold steeringStep at h
  rw [if_pos hnz] at h
  simp only [comCheck_desired_force, comCheck_desired_torque] at h
  have hlast : ∀ t : Steering,
      ¬ 1/2 < Vec2.distance_squared
        (comCheck t (stepCom ctx)).last_seen_com (stepCom ctx) := by
    intro t
    unfold comCheck
    split
    · simp [Vec2.distance_squared_self]
    · assumption
  cases hcl : cacheLookup (comCheck { s with engines := some (resolvedOf ctx s) }
      (stepCom ctx)).firings_cache
      (quantKey s.desired_force s.desired_torque) with
  | some firing =>
    rw [hcl] at h
    simp only [Except.ok.injEq, Prod.mk.injEq] at h
    obtain ⟨hs1, hv, -⟩ := h
    subst hs1
    refine ⟨by simp, by simp, by simp, ?_, hlast _⟩
    rw [hcl, hv]
  | none =>
    rw [hcl] at h
    cases hsl : ctx.solve (steeringProblem (resolvedOf ctx s) (stepCom ctx)
        s.desired_force s.desired_torque) with
    | none => rw [hsl] at h; cases h
    | some sol =>
      rw [hsl] at h
      simp only [Except.ok.injEq, Prod.mk.injEq] at h
      obtain ⟨hs1, hv, -⟩ := h
      subst hs1
      refine ⟨by simp, by simp, by simp, ?_, hlast _⟩
      rw [← hv]
      exact cacheLookup_cons_self _ _ _

/-! ## Claim C6 — cache consistency within a quantization bucket -/

/-- C6: after a successful allocation for one request, any second request on
the same body whose `(force.x, force.y, torque)` triple falls in the same
quantization bucket — with topology and center of mass unchanged (same
step context) — returns the byte-identical firing vector `v1` out of the
cache. -/
theorem C6_cache_consistency (ctx : StepCtx) (s s1 : Steering)
    (v1 : List ℚ) (out1 : List (Vec2 × Vec2)) (f2 : Vec2) (t2 : ℚ)
    (hnz1 : s.desired_force ≠ ⟨0, 0⟩ ∨ s.desired_torque ≠ 0)
    (hnz2 : f2 ≠ ⟨0, 0⟩ ∨ t2 ≠ 0)
    (hkey : quantKey f2 t2 = quantKey s.desired_force s.desired_torque)
    (h1 : steeringStep ctx s = Except.ok (s1, v1, out1)) :
    ∃ (s2 : Steering) (out2 : List (Vec2 × Vec2)),
      steeringStep ctx { s1 with desired_force := f2, desired_torque := t2 }
        = Except.ok (s2, v1, out2) := by
  obtain ⟨hdf, hdt, hE, hlk, hclose⟩ :=
    steeringStep_ok_facts ctx s s1 v1 out1 hnz1 h1
  refine ⟨_, _, steeringStep_cache_hit ctx _ (resolvedOf ctx s) v1 hE hclose
    hnz2 ?_⟩
  show cacheLookup s1.firings_cache (quantKey f2 t2) = some v1
  rw [hkey]
  exact hlk

theorem C6_cache_consistency_witness :
    quantKey ⟨9/8, 0⟩ 0 = quantKey (⟨1, 0⟩ : Vec2) 0
    ∧ ∃ (s2 : Steering) (out2 : List (Vec2 × Vec2)),
      steeringStep ⟨1, ⟨⟨0, 0⟩, fun v => v⟩, ⟨0, 0⟩,
          [(⟨⟨0, 0⟩, fun v => v⟩, [⟨⟨0, 1⟩, 1⟩])],
          fun _ => some fun _ => (1 : ℚ)/2⟩
        { (⟨⟨1, 0⟩, 0, ⟨0, 0⟩, [((3, 0, 0), [(1 : ℚ)/2])],
            some [(⟨0, 0⟩, ⟨0, 1⟩, 1)]⟩ : Steering)
          with desired_force := ⟨9/8, 0⟩, desired_torque := 0 }
        = Except.ok (s2, [(1 : ℚ)/2], out2) := by
  have hkey : quantKey ⟨9/8, 0⟩ 0 = quantKey (⟨1, 0⟩ : Vec2) 0 := by
    norm_num [quantKey, CACHE_COARSENESS, rustTrunc]
    decide
  refine ⟨hkey, C6_cache_consistency
    ⟨1, ⟨⟨0, 0⟩, fun v => v⟩, ⟨0, 0⟩,
      [(⟨⟨0, 0⟩, fun v => v⟩, [⟨⟨0, 1⟩, 1⟩])],
      fun _ => some fun _ => (1 : ℚ)/2⟩
    ⟨⟨1, 0⟩, 0, ⟨0, 0⟩, [], none⟩
    ⟨⟨1, 0⟩, 0, ⟨0, 0⟩, [((3, 0, 0), [(1 : ℚ)/2])],
      some [(⟨0, 0⟩, ⟨0, 1⟩, 1)]⟩
    [(1 : ℚ)/2] [(⟨0, 0⟩, ⟨0, 1⟩)] ⟨9/8, 0⟩ 0
    (Or.inl (by simp)) (Or.inl (by simp)) hkey ?_⟩
  norm_num [steeringStep, resolvedOf, stepCom, comCheck, quantKey, cacheLookup,
    resolveEngines, appliedImpulses, Vec2.distance_squared, rustTrunc,
    CACHE_COARSENESS, Vec2.smul, Int.tdiv, List.filterMap_cons]

/-! ## Claim C7 — topology invalidation -/

/-- C7 counterexample: REMOVING a thruster mount is not detected.  A body
was resolved with two thrusters and has a cached vector `[0.5, 0.5]`; the
second child's `Engine` component is then removed, so only one unchanged
`Engine` remains present and `invalidate_caches` sees no `Changed<Engine>`
row: neither the resolved list nor the firing cache is cleared.  The next
allocation for the previously cached key then returns the stale two-entry
vector (even with a failing solver — no solve happens), whose length `2`
differs from the current resolved thruster count `1`: the claim as stated
is false. -/
theorem C7_removal_stale_cex :
    invalidate_caches [((⟨⟨0, 0⟩, fun v => v⟩, [⟨⟨0, 1⟩, 1⟩]), false)]
        ⟨⟨1, 0⟩, 0, ⟨0, 0⟩, [((3, 0, 0), [(1 : ℚ)/2, (1 : ℚ)/2])],
          some [(⟨0, 0⟩, ⟨0, 1⟩, 1), (⟨1, 0⟩, ⟨0, 1⟩, 1)]⟩
      = ⟨⟨1, 0⟩, 0, ⟨0, 0⟩, [((3, 0, 0), [(1 : ℚ)/2, (1 : ℚ)/2])],
          some [(⟨0, 0⟩, ⟨0, 1⟩, 1), (⟨1, 0⟩, ⟨0, 1⟩, 1)]⟩
    ∧ steeringStep
        ⟨1, ⟨⟨0, 0⟩, fun v => v⟩, ⟨0, 0⟩,
          [(⟨⟨0, 0⟩, fun v => v⟩, [⟨⟨0, 1⟩, 1⟩])], fun _ => none⟩
        ⟨⟨1, 0⟩, 0, ⟨0, 0⟩, [((3, 0, 0), [(1 : ℚ)/2, (1 : ℚ)/2])],
          some [(⟨0, 0⟩, ⟨0, 1⟩, 1), (⟨1, 0⟩, ⟨0, 1⟩, 1)]⟩
      = Except.ok (⟨⟨1, 0⟩, 0, ⟨0, 0⟩,
            [((3, 0, 0), [(1 : ℚ)/2, (1 : ℚ)/2])],
            some [(⟨0, 0⟩, ⟨0, 1⟩, 1), (⟨1, 0⟩, ⟨0, 1⟩, 1)]⟩,
          [(1 : ℚ)/2, (1 : ℚ)/2],
          [(⟨0, 0⟩, ⟨0, 1⟩), (⟨1, 0⟩, ⟨0, 1⟩)])
    ∧ ¬ ([(1 : ℚ)/2, (1 : ℚ)/2].length
          = (resolveEngines
              [(⟨⟨0, 0⟩, fun v => v⟩, [⟨⟨0, 1⟩, 1⟩])]).length) := by
  refine ⟨rfl, ?_, by simp [resolveEngines]⟩
  norm_num [steeringStep, resolvedOf, stepCom, comCheck, quantKey,
    cacheLookup, resolveEngines, appliedImpulses, Vec2.distance_squared,
    rustTrunc, CACHE_COARSENESS, Vec2.smul, Int.tdiv, List.filterMap_cons]

/-- C7 (amended): only a structural change that the `Changed<Engine>`
queries can report — an `Engine` component added or mutated on the body or
a still-present child — triggers invalidation.  For such a detected
change, when `invalidate_caches` runs before the next allocation, both
the resolved thruster list and the firing cache are cleared, geometry is
re-resolved, and the returned firing vector's length equals the current
resolved thruster count; removals and despawns go undetected (see the
counterexample). -/
theorem C7_detected_change_invalidation (ctx : StepCtx)
    (pc : List ((BTransform × List SubEngine) × Bool)) (s s1 : Steering)
    (v : List ℚ) (out : List (Vec2 × Vec2))
    (hparts : pc.map Prod.fst = ctx.parts)
    (hdet : pc.any (fun pb => pb.2) = true)
    (hnz : s.desired_force ≠ ⟨0, 0⟩ ∨ s.desired_torque ≠ 0)
    (h : steeringStep ctx (invalidate_caches pc s) = Except.ok (s1, v, out)) :
    s1.engines = some (resolveEngines ctx.parts) ∧
    v.length = (resolveEngines ctx.parts).length := by
  rw [show invalidate_caches pc s
      = { s with firings_cache := [], engines := none } from by
    unfold invalidate_caches
    rw [if_pos hdet]] at h
  unfold steeringStep at h
  rw [if_pos (show ({ s with firings_cache := [], engines := none
      } : Steering).desired_force ≠ ⟨0, 0⟩ ∨
      ({ s with firings_cache := [], engines := none
      } : Steering).desired_torque ≠ 0 from hnz)] at h
  simp only [comCheck_desired_force, comCheck_desired_torque] at h
  have hres : resolvedOf ctx
      (⟨s.desired_force, s.desired_torque, s.last_seen_com, [], none⟩ : Steering)
      = resolveEngines ctx.parts := rfl
  have hc : (comCheck ⟨s.desired_force, s.desired_torque, s.last_seen_com, [],
      some (resolvedOf ctx
        (⟨s.desired_force, s.desired_torque, s.last_seen_com, [],
          none⟩ : Steering))⟩
      (stepCom ctx)).firings_cache = [] := comCheck_cache_nil _ _ rfl
  rw [hc] at h
  simp only [cacheLookup] at h
  cases hsl : ctx.solve (steeringProblem (resolvedOf ctx
      (⟨s.desired_force, s.desired_torque, s.last_seen_com, [],
        none⟩ : Steering))
      (stepCom ctx) s.desired_force s.desired_torque) with
  | none => rw [hsl] at h; cases h
  | some sol =>
    rw [hsl] at h
    simp only [Except.ok.injEq, Prod.mk.injEq] at h
    obtain ⟨hs1, hv, -⟩ := h
    subst hs1
    constructor
    · simp [hres]
    · rw [← hv, hres]
      simp

theorem C7_detected_change_witness :
    (([((⟨⟨0, 0⟩, fun v => v⟩, [⟨⟨0, 1⟩, 1⟩]), true)] :
        List ((BTransform × List SubEngine) × Bool)).map Prod.fst
      = [(⟨⟨0, 0⟩, fun v => v⟩, [⟨⟨0, 1⟩, 1⟩])])
    ∧ ((⟨⟨1, 0⟩, 0, ⟨0, 0⟩, [((3, 0, 0), [(0 : ℚ)])],
          some [(⟨0, 0⟩, ⟨0, 1⟩, 1)]⟩ : Steering).engines
        = some (resolveEngines [(⟨⟨0, 0⟩, fun v => v⟩, [⟨⟨0, 1⟩, 1⟩])])
      ∧ [(0 : ℚ)].length
        = (resolveEngines [(⟨⟨0, 0⟩, fun v => v⟩, [⟨⟨0, 1⟩, 1⟩])]).length) :=
  ⟨rfl, C7_detected_change_invalidation
    ⟨1, ⟨⟨0, 0⟩, fun v => v⟩, ⟨0, 0⟩, [(⟨⟨0, 0⟩, fun v => v⟩, [⟨⟨0, 1⟩, 1⟩])],
      fun _ => some fun _ => 0⟩
    [((⟨⟨0, 0⟩, fun v => v⟩, [⟨⟨0, 1⟩, 1⟩]), true)]
    ⟨⟨1, 0⟩, 0, ⟨0, 0⟩, [((3, 0, 0), [(1 : ℚ)/2, (1 : ℚ)/2])],
      some [(⟨0, 0⟩, ⟨0, 1⟩, 1), (⟨1, 0⟩, ⟨0, 1⟩, 1)]⟩
    ⟨⟨1, 0⟩, 0, ⟨0, 0⟩, [((3, 0, 0), [(0 : ℚ)])],
      some [(⟨0, 0⟩, ⟨0, 1⟩, 1)]⟩
    [(0 : ℚ)] [] rfl rfl (Or.inl (by simp))
    (by norm_num [steeringStep, invalidate_caches, resolvedOf, stepCom,
      comCheck, quantKey, cacheLookup, resolveEngines, appliedImpulses,
      Vec2.distance_squared, rustTrunc, CACHE_COARSENESS, Vec2.smul,
      Int.tdiv, List.filterMap_cons])⟩
